import Mathlib

/-!
Verification of the Vandal tracer (`eth/tracers/logger/vandal.go`).

This file gives a shallow embedding of the tracer: the opcode classifier
(`GetKind`, `pcGap`, `possiblyHalts`), the basic-block structure with its
`Split` operation, the event recorder (`CaptureStart`, `CaptureState`,
`Stop`) and the segmentation algorithm `GetResult`.

Modelling conventions:
* `vm.OpCode` values are embedded as their byte values (`Nat`); the named
  constants below are the opcodes the source mentions.  The Go code
  compares opcodes through `op.String()`, which is injective on opcode
  values, so comparing the values directly is equivalent.
* `op.IsPush()` lives in the `vm` package (not part of the two source
  files); it is modelled as membership in `PUSH1 .. PUSH32`, go-ethereum's
  definition of the push family.
* `uint64` arithmetic appears only in the subtractions, modelled by
  `sub64` (subtraction modulo `2^64`).  `depth` is a Go `int`, modelled
  as `Int` (no overflow is reachable: its magnitude is bounded by the
  trace length).
* Go slices of pointers (`[]*vandalLogMarshalling`) are modelled as lists
  of global trace indices; the in-place stamping of `Depth`/`CallIndex`
  on the shared marshalling objects is modelled by threading the list of
  marshalling records through the loop and dereferencing the indices when
  the blocks are serialized (`materialize`), which is exactly when
  `json.Marshal` reads the pointers.
* A Go runtime panic (the `marshalLogs[i-1]` index-out-of-range at
  `i = 0`) is modelled by the `none` / `VandalResult.panik` branch.
-/

namespace Vandal

/-- 2^64, the modulus of Go's `uint64` arithmetic. -/
def UINT64_MOD : Nat := 18446744073709551616

/-- Go `uint64` subtraction `a - b` (wraps modulo `2^64`). -/
def sub64 (a b : Nat) : Nat := (a % UINT64_MOD + (UINT64_MOD - b % UINT64_MOD)) % UINT64_MOD

/-! Opcode byte values from the `vm` package (go-ethereum `opcodes.go`). -/

def STOP : Nat := 0x00
def KECCAK256 : Nat := 0x20
def ADDRESS : Nat := 0x30
def BALANCE : Nat := 0x31
def ORIGIN : Nat := 0x32
def CALLER : Nat := 0x33
def CALLVALUE : Nat := 0x34
def CALLDATALOAD : Nat := 0x35
def CALLDATASIZE : Nat := 0x36
def CALLDATACOPY : Nat := 0x37
def CODESIZE : Nat := 0x38
def CODECOPY : Nat := 0x39
def GASPRICE : Nat := 0x3a
def EXTCODESIZE : Nat := 0x3b
def EXTCODECOPY : Nat := 0x3c
def RETURNDATASIZE : Nat := 0x3d
def RETURNDATACOPY : Nat := 0x3e
def BLOCKHASH : Nat := 0x40
def COINBASE : Nat := 0x41
def TIMESTAMP : Nat := 0x42
def NUMBER : Nat := 0x43
def DIFFICULTY : Nat := 0x44
def GASLIMIT : Nat := 0x45
def MSTORE : Nat := 0x52
def MSTORE8 : Nat := 0x53
def SLOAD : Nat := 0x54
def SSTORE : Nat := 0x55
def PC : Nat := 0x58
def MSIZE : Nat := 0x59
def GAS : Nat := 0x5a
def JUMPDEST : Nat := 0x5b
def PUSH1 : Nat := 0x60
def PUSH4 : Nat := 0x63
def PUSH32 : Nat := 0x7f
def CREATE : Nat := 0xf0
def CALL : Nat := 0xf1
def CALLCODE : Nat := 0xf2
def RETURN : Nat := 0xf3
def DELEGATECALL : Nat := 0xf4
def CREATE2 : Nat := 0xf5
def STATICCALL : Nat := 0xfa
def REVERT : Nat := 0xfd
def SELFDESTRUCT : Nat := 0xff

/-- The eight opcode kinds (`OpKind` constants in the source). -/
inductive OpKind where
  | unknown
  | one
  | two
  | threeLoad
  | threeStoreOne
  | threeStoreTwo
  | four
  | five
deriving DecidableEq, Repr

/-- `GetKind` from the source: classify an opcode into one of the eight kinds. -/
def GetKind (op : Nat) : OpKind :=
  if op = ADDRESS ∨ op = ORIGIN ∨ op = CALLER ∨ op = CALLVALUE ∨
     op = CALLDATASIZE ∨ op = CODESIZE ∨ op = GASPRICE ∨ op = RETURNDATASIZE ∨
     op = COINBASE ∨ op = TIMESTAMP ∨ op = NUMBER ∨ op = DIFFICULTY ∨
     op = GASLIMIT ∨ op = PC ∨ op = MSIZE ∨ op = GAS then OpKind.one
  else if op = KECCAK256 ∨ op = BALANCE ∨ op = CALLDATALOAD ∨
     op = EXTCODESIZE ∨ op = BLOCKHASH then OpKind.two
  else if op = SLOAD then OpKind.threeLoad
  else if op = SSTORE ∨ op = MSTORE ∨ op = MSTORE8 then OpKind.threeStoreOne
  else if op = CALLDATACOPY ∨ op = CODECOPY ∨ op = EXTCODECOPY ∨
     op = RETURNDATACOPY then OpKind.threeStoreTwo
  else if op = CALL ∨ op = CALLCODE ∨ op = DELEGATECALL ∨ op = STATICCALL then OpKind.four
  else if op = CREATE ∨ op = CREATE2 then OpKind.five
  else OpKind.unknown

/-- `possiblyHalts` from the source: opcodes that unconditionally end the scope. -/
def possiblyHalts (op : Nat) : Bool :=
  op == STOP || op == REVERT || op == SELFDESTRUCT || op == RETURN

/-- `vm.OpCode.IsPush`, modelled from go-ethereum: `PUSH1 <= op && op <= PUSH32`. -/
def isPush (op : Nat) : Bool := PUSH1 ≤ op && op ≤ PUSH32

/-- `pcGap` from the source: `int(op - vm.PUSH1 + 1)` for pushes, else `1`. -/
def pcGap (op : Nat) : Nat :=
  if isPush op then op - PUSH1 + 1 else 1

/-- `vandalLog` from the source: one recorded execution event.
(`Value` is a `*big.Int` that `CaptureState` never populates, hence `Option`.) -/
structure vandalLog where
  Pc : Nat
  Op : Nat
  Gas : Nat
  Cost : Nat
  Ret : List Nat
  Value : Option Int
deriving DecidableEq, Repr

/-- `vandalLogMarshalling` from the source: an event annotated with
`Depth` and `CallIndex` (the json-excluded `Block` back-pointer is not
carried; block membership is the `Ops` lists below). -/
structure vandalLogMarshalling where
  Pc : Nat
  Op : Nat
  Gas : Nat
  Cost : Nat
  Depth : Int
  CallIndex : Nat
  Ret : List Nat
  Value : Option Int
deriving DecidableEq, Repr

/-- `vandalBasicBlock` from the source.  `Ops` is a `[]*vandalLogMarshalling`
in Go; the pointers are modelled as global trace indices, dereferenced by
`materialize` below at serialization time. -/
structure vandalBasicBlock where
  Entry : Nat
  Exit : Nat
  Ops : List Nat
  Address : Nat
deriving DecidableEq, Repr

/-- `Split` from the source, step for step:
`bb.Exit` is set to `entry - 1` first, then `bb.Ops` is truncated to the
prefix of length `entry - bb.Entry`, and only then is the new block's
`Ops` taken as the suffix of the (already truncated) `bb.Ops` — the Go
line `new.Ops = bb.Ops[entry-bb.Entry:]` slices the truncated slice.
Return value is the pair (mutated receiver, new block).  The source only
calls it with `bb.Entry ≤ entry` and offset at most `len(bb.Ops)`. -/
def vandalBasicBlock.Split (bb : vandalBasicBlock) (entry : Nat) :
    vandalBasicBlock × vandalBasicBlock :=
  let n0 : vandalBasicBlock := ⟨entry, bb.Exit, [], bb.Address⟩
  let bb1 : vandalBasicBlock :=
    { bb with Exit := sub64 entry 1, Ops := bb.Ops.take (entry - bb.Entry) }
  let n1 : vandalBasicBlock := { n0 with Ops := bb1.Ops.drop (entry - bb1.Entry) }
  (bb1, n1)

/-- `VandalLogger` state from the source (`env` is the opaque `*vm.EVM`
pointer, observed nowhere in this file's logic, and is not carried). -/
structure VandalLogger where
  logs : List vandalLog
  reason : Option String
  interrupt : Bool
  CallStack : List vandalLog
deriving DecidableEq, Repr

/-- `NewVandalTracer` from the source: the zero-valued logger. -/
def NewVandalTracer : VandalLogger :=
  { logs := [], reason := none, interrupt := false, CallStack := [] }

/-- `CaptureStart` from the source: stores the environment and makes a
fresh empty `CallStack`; nothing else is touched. -/
def CaptureStart (l : VandalLogger) : VandalLogger :=
  { l with CallStack := [] }

/-- `CaptureState` from the source: drop the event if interrupted,
otherwise append it to `logs` (`Value` is left nil). -/
def CaptureState (l : VandalLogger) (pc op gas cost : Nat) (res : List Nat) : VandalLogger :=
  if l.interrupt then l
  else { l with logs := l.logs ++
    [{ Pc := pc % UINT64_MOD, Op := op, Gas := gas, Cost := cost, Ret := res, Value := none }] }

/-- `Stop` from the source: store the (possibly nil) reason and set the
interrupt flag. -/
def Stop (l : VandalLogger) (err : Option String) : VandalLogger :=
  { l with reason := err, interrupt := true }

/-- A sequence of `CaptureState` calls, in order. -/
def applyStates (l : VandalLogger) : List (Nat × Nat × Nat × Nat × List Nat) → VandalLogger
  | [] => l
  | (pc, op, gas, cost, res) :: evs => applyStates (CaptureState l pc op gas cost res) evs

/-- The annotation pass of `GetResult` (lines 130–144): build the
`marshalLogs` records with `Depth := depth` (still 0 there) and the
running `callIndex`, incremented first whenever `log.Pc == 0 && i != 0`.
Returns the records and the final value of `callIndex`. -/
def annotatePass : List vandalLog → Nat → Nat → List vandalLogMarshalling × Nat
  | [], _, callIndex => ([], callIndex)
  | log :: rest, i, callIndex =>
    let c := if log.Pc = 0 ∧ i ≠ 0 then callIndex + 1 else callIndex
    let m : vandalLogMarshalling :=
      { Pc := log.Pc, Op := log.Op, Gas := log.Gas, Cost := log.Cost,
        Depth := 0, CallIndex := c, Ret := log.Ret, Value := log.Value }
    let p := annotatePass rest (i + 1) c
    (m :: p.1, p.2)

/-- The branch of the segmentation loop body (lines 150–169), after the
current instruction (index `i`) has been appended to `current.Ops`.
`prev` is `marshalLogs[i-1]` as it stands at iteration `i` (already
re-stamped at iteration `i-1`), or `none` when `i = 0`, where Go's
`marshalLogs[i-1]` is an index-out-of-range panic — the `none` result.
Returns the updated `(blocks, current, depth)`. -/
def segBranch (n i : Nat) (log : vandalLogMarshalling) (prev : Option vandalLogMarshalling)
    (blocks : List vandalBasicBlock) (current : vandalBasicBlock) (depth : Int) :
    Option (List vandalBasicBlock × vandalBasicBlock × Int) :=
  if log.Pc = 0 ∧ i = 0 then
    some (blocks, current, 1)
  else if log.Pc = 0 then
    let s := current.Split i
    some (blocks ++ [s.1], s.2, depth - 1)
  else if GetKind log.Op = OpKind.one ∨ GetKind log.Op = OpKind.five then
    match prev with
    | none => none
    | some p =>
      if ¬(p.CallIndex = log.CallIndex ∧ sub64 log.Pc p.Pc = pcGap p.Op ∧
            possiblyHalts p.Op = false) then
        let s := current.Split i
        some (blocks ++ [s.1], s.2, depth - 1)
      else
        some (blocks, current, depth)
  else if i = n - 1 then
    some (blocks ++ [current], current, depth)
  else
    some (blocks, current, depth)

/-- The segmentation loop of `GetResult` (lines 146–173).  `callIndex` is
the final annotation counter (the loop never changes it); `marshal` is the
mutable `marshalLogs` array, threaded so that the re-stamping
`log.Depth = depth; log.CallIndex = int(callIndex)` at the end of each
iteration is visible to later iterations and to serialization.  The Go
loop runs once per element of `marshalLogs`; the last argument is the
number of remaining iterations (invoked with index 0 and `n`, so it
counts `i` up from 0 to `n - 1`).  Returns `none` on the Go panic, else
the finalized blocks and the final records. -/
def segLoop (callIndex n : Nat) : List vandalLogMarshalling →
    List vandalBasicBlock → vandalBasicBlock → Int → Nat → Nat →
    Option (List vandalBasicBlock × List vandalLogMarshalling)
  | marshal, blocks, _current, _depth, _i, 0 => some (blocks, marshal)
  | marshal, blocks, current, depth, i, rem + 1 =>
    match marshal[i]? with
    | none => none
    | some log =>
      let cur1 : vandalBasicBlock := { current with Ops := current.Ops ++ [i] }
      match segBranch n i log (if i = 0 then none else marshal[i - 1]?) blocks cur1 depth with
      | none => none
      | some (blocks1, current1, depth1) =>
        segLoop callIndex n
          (marshal.set i { log with Depth := depth1, CallIndex := callIndex })
          blocks1 current1 depth1 (i + 1) rem

/-- A serialized basic block: what `json.Marshal` emits for one
`vandalBasicBlock` (`Ops` dereferenced to the final marshalling records;
the `Block` back-pointer is json-excluded). -/
structure outBlock where
  Entry : Nat
  Exit : Nat
  Ops : List vandalLogMarshalling
  Address : Nat
deriving DecidableEq, Repr

/-- Dereference a block's op pointers against the final records. -/
def materialize (marshal : List vandalLogMarshalling) (b : vandalBasicBlock) : outBlock :=
  { Entry := b.Entry, Exit := b.Exit,
    Ops := b.Ops.filterMap (fun j => marshal[j]?), Address := b.Address }

/-- The outcome of `GetResult`: the serialized blocks, the stored failure
reason (`return nil, l.reason`), or a Go runtime panic. -/
inductive VandalResult where
  | ok : List outBlock → VandalResult
  | err : String → VandalResult
  | panik : VandalResult
deriving DecidableEq, Repr

/-- `GetResult` from the source (lines 117–176). -/
def GetResult (l : VandalLogger) : VandalResult :=
  match l.reason with
  | some r => VandalResult.err r
  | none =>
    let entry : Nat := 0
    let exitIdx : Nat := sub64 l.logs.length 1
    let ann := annotatePass l.logs 0 0
    let current : vandalBasicBlock := ⟨entry, exitIdx, [], 0⟩
    match segLoop ann.2 l.logs.length ann.1 [] current 0 0 l.logs.length with
    | none => VandalResult.panik
    | some (blocks, finalLogs) => VandalResult.ok (blocks.map (materialize finalLogs))

/-- All instruction records of a successful result, in block order. -/
def outOps : VandalResult → List vandalLogMarshalling
  | VandalResult.ok bs => (bs.map outBlock.Ops).flatten
  | _ => []

/-- The (entry, exit, pcs of the owned instructions) of each output block. -/
def blockShapes : VandalResult → List (Nat × Nat × List Nat)
  | VandalResult.ok bs => bs.map (fun b => (b.Entry, b.Exit, b.Ops.map vandalLogMarshalling.Pc))
  | _ => []

/-- An event with the given pc and opcode (gas, cost, payload zeroed). -/
def mkLog (pc op : Nat) : vandalLog :=
  { Pc := pc, Op := op, Gas := 0, Cost := 0, Ret := [], Value := none }

/-- A live (non-cancelled) logger holding the given recorded events. -/
def tracerWith (logs : List vandalLog) : VandalLogger :=
  { logs := logs, reason := none, interrupt := false, CallStack := [] }

/-- C6: `pcGap` on the push family returns the number of immediate bytes,
not that number plus one: `pcGap PUSH4 = 4` (and `pcGap PUSH1 = 1`),
whereas the claim requires a push of 4 bytes to have width 5 (and a push
of 1 byte to have width 2).  Non-push opcodes do get width 1. -/
theorem C6_pcGap_offbyone :
    pcGap PUSH4 = 4 ∧ pcGap PUSH1 = 1 ∧ pcGap JUMPDEST = 1 := by decide

/-- C1: the partition property fails.  For the one-event trace whose only
instruction has program counter 0, `GetResult` succeeds but returns an
empty block list: the instruction only sets `depth` and the still-open
block is never appended (the last-position append sits on the same
`else if` chain), so the event appears in no block at all. -/
theorem C1_partition_failure :
    GetResult (tracerWith [mkLog 0 JUMPDEST]) = VandalResult.ok [] ∧
      (tracerWith [mkLog 0 JUMPDEST]).logs.length = 1 := by decide

/-- C2: `Split` drops the suffix.  Splitting the block spanning 0..1 that
owns the two instructions `[10, 11]` at boundary 1 leaves the receiver
with `[10]` but returns a new block owning `[]` instead of `[11]`: the
suffix is sliced from the already-truncated list, so instruction 11 is
dropped and the total count shrinks from 2 to 1. -/
theorem C2_split_drops_suffix :
    vandalBasicBlock.Split ⟨0, 1, [10, 11], 0⟩ 1 =
      (⟨0, 0, [10], 0⟩, ⟨1, 1, [], 0⟩) := by decide

/-- C5: the re-entry scenario produces one block, not two.  On the trace
A = (pc 5, unclassified opcode) then B = (pc 0), `GetResult` returns the
single block (entry 0, exit 0) owning only A: the split empties the new
block's op list (C2's bug) and the post-split current block is never
appended because the final-position append is on the same `else if`
chain as the split branch, so B appears in no output block. -/
theorem C5_reentry_single_block :
    blockShapes (GetResult (tracerWith [mkLog 5 JUMPDEST, mkLog 0 JUMPDEST])) =
      [(0, 0, [5])] := by decide

/-- C3 counterexample: depth goes below 0.  On the trace with program
counters 5, 0, 7 (all unclassified opcodes) the re-entry at position 1
decrements the never-initialized depth from 0 to −1, and the output
instruction at pc 7 is stamped with depth −1. -/
theorem C3_depth_negative_cex :
    (outOps (GetResult
        (tracerWith [mkLog 5 JUMPDEST, mkLog 0 JUMPDEST, mkLog 7 JUMPDEST]))).any
      (fun m => m.Depth < 0) = true := by decide

/-- C4 counterexample: the output call indexes do not start at 0 and do
not step at re-entries.  On the trace with program counters 0, 0, 5 the
claimed per-instruction call indexes are 0, 1, 1, but the final stamping
overwrites every record with the final counter: the surviving output
instructions (pcs 0 and 5) both carry call index 1, the first of them —
the position-0 instruction — carrying 1 instead of 0. -/
theorem C4_callindex_cex :
    (outOps (GetResult
        (tracerWith [mkLog 0 JUMPDEST, mkLog 0 JUMPDEST, mkLog 5 JUMPDEST]))).map
      (fun m => (m.Pc, m.CallIndex)) = [(0, 1), (5, 1)] := by decide

/-- C8 counterexample: `CaptureStart` does not reset the accumulated
state.  After recording one event and cancelling, a `CaptureStart` leaves
the recorded sequence non-empty and the stored reason and interrupt flag
in place. -/
theorem C8_no_reset_cex :
    (CaptureStart (Stop (CaptureState NewVandalTracer 3 JUMPDEST 0 0 []) (some "timeout"))).logs.length = 1 ∧
    (CaptureStart (Stop (CaptureState NewVandalTracer 3 JUMPDEST 0 0 []) (some "timeout"))).reason = some "timeout" ∧
    (CaptureStart (Stop (CaptureState NewVandalTracer 3 JUMPDEST 0 0 []) (some "timeout"))).interrupt = true :=
  ⟨rfl, rfl, rfl⟩

/-- C8 (amended): `CaptureStart` resets only the call stack; the recorded
logs, the stored cancellation reason and the interrupt flag are all
unchanged. -/
theorem C8_start_resets_only_callstack (l : VandalLogger) :
    (CaptureStart l).CallStack = [] ∧ (CaptureStart l).logs = l.logs ∧
    (CaptureStart l).reason = l.reason ∧ (CaptureStart l).interrupt = l.interrupt :=
  ⟨rfl, rfl, rfl, rfl⟩

/-- `CaptureState` never changes the stored reason. -/
theorem CaptureState_reason (l : VandalLogger) (pc op gas cost : Nat) (res : List Nat) :
    (CaptureState l pc op gas cost res).reason = l.reason := by
  unfold CaptureState; split <;> rfl

/-- A run of `CaptureState` calls never changes the stored reason. -/
theorem applyStates_reason (evs : List (Nat × Nat × Nat × Nat × List Nat)) :
    ∀ l : VandalLogger, (applyStates l evs).reason = l.reason := by
  induction evs with
  | nil => intro l; rfl
  | cons e evs ih =>
    intro l
    obtain ⟨pc, op, gas, cost, res⟩ := e
    rw [applyStates, ih, CaptureState_reason]

/-- C7: cancellation short-circuits.  If `Stop` is called with a non-nil
reason, then no matter which (and how many) events are recorded before or
after it, `GetResult` returns exactly that reason and no block list. -/
theorem C7_cancellation_short_circuit (l : VandalLogger) (r : String)
    (evs : List (Nat × Nat × Nat × Nat × List Nat)) :
    GetResult (applyStates (Stop l (some r)) evs) = VandalResult.err r := by
  unfold GetResult
  rw [applyStates_reason]
  rfl

/-- An interrupted logger ignores every further `CaptureState` call. -/
theorem applyStates_interrupted (evs : List (Nat × Nat × Nat × Nat × List Nat)) :
    ∀ l : VandalLogger, l.interrupt = true → applyStates l evs = l := by
  induction evs with
  | nil => intro l _; rfl
  | cons e evs ih =>
    intro l hl
    obtain ⟨pc, op, gas, cost, res⟩ := e
    rw [applyStates, CaptureState, if_pos hl, ih l hl]

/-- C10 counterexample: after `Stop(nil)` the result need not be a
successfully serialized block sequence.  If the single pre-stop event has
a nonzero program counter and a ContextRead opcode, `GetResult` hits the
`marshalLogs[-1]` panic instead of returning blocks. -/
theorem C10_stop_nil_panik_cex :
    GetResult (applyStates (Stop (tracerWith [mkLog 1 ADDRESS]) none)
        [(7, JUMPDEST, 0, 0, [])]) = VandalResult.panik := by decide

/-- C10 (amended): `Stop` with a nil reason makes every subsequent
`CaptureState` a no-op (the whole post-stop state equals the stop-time
state, so the result is computed from only the pre-stop events), and
`GetResult` never reports a failure — its result is never the error
branch (it is the serialized blocks except when segmentation hits the
C9 out-of-range panic). -/
theorem C10_stop_nil_no_failure (l : VandalLogger)
    (evs : List (Nat × Nat × Nat × Nat × List Nat)) :
    applyStates (Stop l none) evs = Stop l none ∧
    ∀ e : String, GetResult (applyStates (Stop l none) evs) ≠ VandalResult.err e := by
  have hs : applyStates (Stop l none) evs = Stop l none :=
    applyStates_interrupted evs (Stop l none) rfl
  refine ⟨hs, ?_⟩
  intro e
  rw [hs]
  unfold GetResult
  show (match (Stop l none).reason with
    | some r => VandalResult.err r
    | none => _) ≠ _
  cases hseg : segLoop (annotatePass (Stop l none).logs 0 0).2 (Stop l none).logs.length
      (annotatePass (Stop l none).logs 0 0).1 []
      ⟨0, sub64 (Stop l none).logs.length 1, [], 0⟩ 0 0 (Stop l none).logs.length with
  | none => simp [Stop, hseg]
  | some p => simp [Stop, hseg]

/-- What the re-stamping at the end of each loop iteration guarantees for
every record the loop has visited: the call index is the final counter
value, and the depth lies between `-n` and `1`. -/
def stampedProp (c n : Nat) (m : vandalLogMarshalling) : Prop :=
  m.CallIndex = c ∧ -(n : Int) ≤ m.Depth ∧ m.Depth ≤ 1

/-- The annotation pass produces one record per event. -/
theorem annotatePass_length (logs : List vandalLog) :
    ∀ i c, (annotatePass logs i c).1.length = logs.length := by
  induction logs with
  | nil => intro i c; rfl
  | cons g gs ih => intro i c; simp [annotatePass, ih]

/-- One branch of the segmentation loop changes `depth` to `1`, keeps it,
or decrements it by one. -/
theorem segBranch_depth {n i : Nat} {log : vandalLogMarshalling}
    {prev : Option vandalLogMarshalling} {blocks b1 : List vandalBasicBlock}
    {cur c1 : vandalBasicBlock} {depth d1 : Int}
    (h : segBranch n i log prev blocks cur depth = some (b1, c1, d1)) :
    d1 = 1 ∨ d1 = depth ∨ d1 = depth - 1 := by
  unfold segBranch at h
  split at h
  · simp only [Option.some.injEq, Prod.mk.injEq] at h
    exact Or.inl h.2.2.symm
  · split at h
    · simp only [Option.some.injEq, Prod.mk.injEq] at h
      exact Or.inr (Or.inr h.2.2.symm)
    · split at h
      · split at h
        · simp at h
        · split at h
          · simp only [Option.some.injEq, Prod.mk.injEq] at h
            exact Or.inr (Or.inr h.2.2.symm)
          · simp only [Option.some.injEq, Prod.mk.injEq] at h
            exact Or.inr (Or.inl h.2.2.symm)
      · split at h
        · simp only [Option.some.injEq, Prod.mk.injEq] at h
          exact Or.inr (Or.inl h.2.2.symm)
        · simp only [Option.some.injEq, Prod.mk.injEq] at h
          exact Or.inr (Or.inl h.2.2.symm)

/-- Main loop invariant: if every record already stamped satisfies
`stampedProp` and the running depth is within `[-i, 1]`, then on
successful termination every record of the final array satisfies
`stampedProp`. -/
theorem segLoop_stamped (c n : Nat) :
    ∀ (rem : Nat) (i : Nat) (marshal : List vandalLogMarshalling)
      (blocks : List vandalBasicBlock) (cur : vandalBasicBlock) (depth : Int)
      (bs : List vandalBasicBlock) (ms : List vandalLogMarshalling),
      i + rem = n →
      marshal.length = n →
      (∀ j m, j < i → marshal[j]? = some m → stampedProp c n m) →
      -(i : Int) ≤ depth → depth ≤ 1 →
      segLoop c n marshal blocks cur depth i rem = some (bs, ms) →
      ∀ (j : Nat) (m : vandalLogMarshalling), ms[j]? = some m → stampedProp c n m := by
  intro rem
  induction rem with
  | zero =>
    intro i marshal blocks cur depth bs ms hin hlen hinv _ _ hseg j m hj
    simp only [segLoop, Option.some.injEq, Prod.mk.injEq] at hseg
    obtain ⟨-, rfl⟩ := hseg
    obtain ⟨hjl, -⟩ := List.getElem?_eq_some_iff.mp hj
    exact hinv j m (by omega) hj
  | succ rem ih =>
    intro i marshal blocks cur depth bs ms hin hlen hinv hd1 hd2 hseg j m hj
    have hi_lt : i < n := by omega
    cases hmi : marshal[i]? with
    | none =>
      rw [List.getElem?_eq_none_iff] at hmi
      omega
    | some log =>
      simp only [segLoop, hmi] at hseg
      cases hsb : segBranch n i log (if i = 0 then none else marshal[i - 1]?) blocks
          { cur with Ops := cur.Ops ++ [i] } depth with
      | none => rw [hsb] at hseg; exact Option.noConfusion hseg
      | some t =>
        obtain ⟨b1, c1, d1⟩ := t
        rw [hsb] at hseg
        have hd' := segBranch_depth hsb
        refine ih (i + 1)
          (marshal.set i { log with Depth := d1, CallIndex := c }) b1 c1 d1 bs ms
          (by omega) (by simp [hlen]) ?_ (by rcases hd' with h | h | h <;> omega)
          (by rcases hd' with h | h | h <;> omega) hseg j m hj
        intro j' m' hj' hget
        by_cases hji : j' = i
        · subst hji
          rw [List.getElem?_set_self (by omega)] at hget
          cases hget
          refine ⟨rfl, ?_, ?_⟩ <;> rcases hd' with h | h | h <;> simp <;> omega
        · rw [List.getElem?_set_ne (fun hh => hji hh.symm)] at hget
          exact hinv j' m' (by omega) hget

/-- Every instruction record in a successful `GetResult` output carries
the final annotation counter as its call index and a depth in
`[-N, 1]` (`N` the trace length): the loop stamps every position and the
serialized blocks only dereference stamped records. -/
theorem getResult_stamped (l : VandalLogger) (m : vandalLogMarshalling)
    (hm : m ∈ outOps (GetResult l)) :
    stampedProp (annotatePass l.logs 0 0).2 l.logs.length m := by
  unfold GetResult at hm
  cases hr : l.reason with
  | some r => rw [hr] at hm; simp [outOps] at hm
  | none =>
    simp only [hr] at hm
    cases hseg : segLoop (annotatePass l.logs 0 0).2 l.logs.length (annotatePass l.logs 0 0).1
        [] ⟨0, sub64 l.logs.length 1, [], 0⟩ 0 0 l.logs.length with
    | none => rw [hseg] at hm; simp [outOps] at hm
    | some p =>
      obtain ⟨bs, ms⟩ := p
      rw [hseg] at hm
      simp only [outOps, List.mem_flatten, List.mem_map] at hm
      obtain ⟨ops, ⟨ob, ⟨b, hb, rfl⟩, rfl⟩, hmo⟩ := hm
      simp only [materialize, List.mem_filterMap] at hmo
      obtain ⟨jj, _, hget⟩ := hmo
      exact segLoop_stamped (annotatePass l.logs 0 0).2 l.logs.length l.logs.length 0
        (annotatePass l.logs 0 0).1 [] ⟨0, sub64 l.logs.length 1, [], 0⟩ 0 bs ms
        (by omega) (annotatePass_length l.logs 0 0)
        (fun j' m' hj' _ => absurd hj' (Nat.not_lt_zero j'))
        (by simp) (by norm_num) hseg jj m hget

/-- C3 (amended): depth is not bounded below by 0 (see the counterexample
above); what holds is that the depth stamped on every instruction of a
successful `GetResult` output lies between `-N` and `1`, where `N` is the
length of the recorded trace. -/
theorem C3_depth_bounded (l : VandalLogger) (m : vandalLogMarshalling)
    (hm : m ∈ outOps (GetResult l)) :
    -(l.logs.length : Int) ≤ m.Depth ∧ m.Depth ≤ 1 :=
  (getResult_stamped l m hm).2

/-- C3 witness: the amended bound instantiated on the pc-trace 5, 0, 7,
where the output instruction at pc 7 carries depth −1 ∈ [−3, 1]. -/
theorem C3_depth_bounded_witness :
    -(((tracerWith [mkLog 5 JUMPDEST, mkLog 0 JUMPDEST, mkLog 7 JUMPDEST]).logs.length : Int)) ≤
        ({ Pc := 7, Op := JUMPDEST, Gas := 0, Cost := 0, Depth := -1, CallIndex := 1,
           Ret := [], Value := none } : vandalLogMarshalling).Depth ∧
      ({ Pc := 7, Op := JUMPDEST, Gas := 0, Cost := 0, Depth := -1, CallIndex := 1,
         Ret := [], Value := none } : vandalLogMarshalling).Depth ≤ 1 :=
  C3_depth_bounded (tracerWith [mkLog 5 JUMPDEST, mkLog 0 JUMPDEST, mkLog 7 JUMPDEST])
    { Pc := 7, Op := JUMPDEST, Gas := 0, Cost := 0, Depth := -1, CallIndex := 1,
      Ret := [], Value := none } (by decide)

/-- For `i ≥ 1` the annotation counter ends at its start value plus the
number of pc-0 events in the remaining suffix. -/
theorem annotatePass_snd_of_pos (logs : List vandalLog) :
    ∀ i c, 1 ≤ i →
      (annotatePass logs i c).2 = c + logs.countP (fun g => g.Pc == 0) := by
  induction logs with
  | nil => intro i c _; simp [annotatePass]
  | cons g gs ih =>
    intro i c hi
    by_cases hg : g.Pc = 0
    · simp only [annotatePass]
      rw [if_pos ⟨hg, by omega⟩, ih (i + 1) (c + 1) (by omega), List.countP_cons]
      simp [hg]
      omega
    · simp only [annotatePass]
      rw [if_neg (by tauto), ih (i + 1) c (by omega), List.countP_cons]
      simp [hg]

/-- The final annotation counter equals the number of events after
position 0 whose program counter is 0. -/
theorem annotatePass_final (logs : List vandalLog) :
    (annotatePass logs 0 0).2 = (logs.drop 1).countP (fun g => g.Pc == 0) := by
  cases logs with
  | nil => rfl
  | cons g gs =>
    simp only [annotatePass]
    rw [if_neg (by simp), annotatePass_snd_of_pos gs 1 0 (le_refl 1)]
    simp

/-- C4 (amended): the call-index values carried by the output instructions
are not the running per-position counter (see the counterexample above):
the final stamping overwrites every record, so every output instruction
carries the same value — the total number of pc-0 events after position 0
in the whole recorded trace.  In particular the carried sequence is
constant, hence non-decreasing, but it does not start at 0 and does not
step at re-entries. -/
theorem C4_callindex_constant (l : VandalLogger) (m : vandalLogMarshalling)
    (hm : m ∈ outOps (GetResult l)) :
    m.CallIndex = (l.logs.drop 1).countP (fun g => g.Pc == 0) := by
  rw [(getResult_stamped l m hm).1, annotatePass_final]

/-- C4 witness: the amended statement instantiated on the pc-trace
0, 0, 5, where every output instruction carries call index 1, the number
of pc-0 events after position 0. -/
theorem C4_callindex_constant_witness :
    ({ Pc := 0, Op := JUMPDEST, Gas := 0, Cost := 0, Depth := 1, CallIndex := 1,
       Ret := [], Value := none } : vandalLogMarshalling).CallIndex =
      ((tracerWith [mkLog 0 JUMPDEST, mkLog 0 JUMPDEST, mkLog 5 JUMPDEST]).logs.drop 1).countP
        (fun g => g.Pc == 0) :=
  C4_callindex_constant (tracerWith [mkLog 0 JUMPDEST, mkLog 0 JUMPDEST, mkLog 5 JUMPDEST])
    { Pc := 0, Op := JUMPDEST, Gas := 0, Cost := 0, Depth := 1, CallIndex := 1,
      Ret := [], Value := none } (by decide)

/-- At iteration 0, a nonzero program counter together with a
ContextRead/CreateLike kind sends the branch into the continuation
predicate, whose first read is `marshalLogs[-1]` — the panic. -/
theorem segBranch_zero_panik (n : Nat) (log : vandalLogMarshalling)
    (blocks : List vandalBasicBlock) (cur : vandalBasicBlock) (depth : Int)
    (hpc : log.Pc ≠ 0)
    (hk : GetKind log.Op = OpKind.one ∨ GetKind log.Op = OpKind.five) :
    segBranch n 0 log none blocks cur depth = none := by
  unfold segBranch
  rw [if_neg (by tauto), if_neg hpc, if_pos hk]

/-- Starting the loop on a first record with nonzero pc and kind One/Five
returns the panic. -/
theorem segLoop_zero_panik (c n : Nat) (m0 : vandalLogMarshalling)
    (rest : List vandalLogMarshalling) (blocks : List vandalBasicBlock)
    (cur : vandalBasicBlock) (depth : Int) (rem : Nat)
    (hpc : m0.Pc ≠ 0)
    (hk : GetKind m0.Op = OpKind.one ∨ GetKind m0.Op = OpKind.five) :
    segLoop c n (m0 :: rest) blocks cur depth 0 (rem + 1) = none := by
  simp only [segLoop, List.getElem?_cons_zero, if_true]
  rw [segBranch_zero_panik n m0 blocks _ depth hpc hk]

/-- C9: `GetResult` is not total.  On any non-cancelled trace whose first
event has a nonzero program counter and an opcode of kind ContextRead
(`OpKindOne`) or CreateLike (`OpKindFive`), the continuation predicate is
evaluated at `i = 0` and reads `marshalLogs[i-1]` — an index-out-of-range
runtime panic in Go, the `panik` branch of the embedding. -/
theorem C9_first_event_discontinuity_panics (l : VandalLogger)
    (g : vandalLog) (gs : List vandalLog)
    (hlogs : l.logs = g :: gs) (hreason : l.reason = none)
    (hpc : g.Pc ≠ 0)
    (hk : GetKind g.Op = OpKind.one ∨ GetKind g.Op = OpKind.five) :
    GetResult l = VandalResult.panik := by
  have hann1 : (annotatePass (g :: gs) 0 0).1 =
      { Pc := g.Pc, Op := g.Op, Gas := g.Gas, Cost := g.Cost, Depth := 0, CallIndex := 0,
        Ret := g.Ret, Value := g.Value } :: (annotatePass gs 1 0).1 := by
    simp only [annotatePass]
    rw [if_neg (by simp)]
  simp only [GetResult, hreason, hlogs]
  rw [hann1, List.length_cons,
    segLoop_zero_panik (annotatePass (g :: gs) 0 0).2 (gs.length + 1) _
      (annotatePass gs 1 0).1 [] _ 0 gs.length hpc hk]

/-- C9 witness: the one-event trace (pc 1, opcode ADDRESS) panics. -/
theorem C9_witness :
    GetResult (tracerWith [mkLog 1 ADDRESS]) = VandalResult.panik :=
  C9_first_event_discontinuity_panics (tracerWith [mkLog 1 ADDRESS]) (mkLog 1 ADDRESS) []
    rfl rfl (by decide) (Or.inl (by decide))

end Vandal
